import Mathlib

/-!
Shallow embedding of the points-based Plex collection curation engine of the
Tautulli_Curated_Plex_Collection repository, together with proofs about the
scoring accessors, the diff-based reconciler, the reorder loop, the metadata
cache persistence format and the off-peak refresher entry point.

Python dictionaries are modelled as association lists whose update replaces
the value of the first matching key in place (Python dicts keep insertion
order and key update does not move the key).  Python runtime values that the
scoring code can encounter are modelled by the inductive `PyVal`; a raised
exception is modelled with `Except`/`Option` results.
-/

/-- Model of a Python runtime value as stored in the JSON-backed score and
cache files: `None`, booleans, ints, floats (as rationals), strings and
(insertion-ordered) dicts with string keys. -/
inductive PyVal where
  | vNone : PyVal
  | vBool (b : Bool) : PyVal
  | vInt (n : Int) : PyVal
  | vFloat (q : Rat) : PyVal
  | vStr (s : String) : PyVal
  | vDict (fields : List (String × PyVal)) : PyVal

/-- Structural decidable equality for `PyVal` (nested through lists). -/
def PyVal.beq : PyVal → PyVal → Bool
  | .vNone, .vNone => true
  | .vBool a, .vBool b => a == b
  | .vInt a, .vInt b => a == b
  | .vFloat a, .vFloat b => a == b
  | .vStr a, .vStr b => a == b
  | .vDict a, .vDict b => beqFields a b
  | _, _ => false
where beqFields : List (String × PyVal) → List (String × PyVal) → Bool
  | [], [] => true
  | (k₁, v₁) :: r₁, (k₂, v₂) :: r₂ => k₁ == k₂ && PyVal.beq v₁ v₂ && beqFields r₁ r₂
  | _, _ => false

/-- Python truthiness (`bool(v)`): `None`, `False`, `0`, `0.0`, `""` and `{}`
are falsy, everything else is truthy. -/
def truthy : PyVal → Bool
  | .vNone => false
  | .vBool b => b
  | .vInt n => !(n == 0)
  | .vFloat q => !(q == 0)
  | .vStr s => !(s == "")
  | .vDict fields => !fields.isEmpty

/-- Model of the Python expression `v or 0`: keep `v` when truthy, else `0`. -/
def pyOr0 (v : PyVal) : PyVal :=
  if truthy v then v else .vInt 0

/-- Decimal digit value of a character, `none` for a non-digit. -/
def digitVal (c : Char) : Option Nat :=
  if 48 ≤ c.toNat ∧ c.toNat ≤ 57 then some (c.toNat - 48) else none

/-- Parse a non-empty all-digit character list as a natural number. -/
def parseDigits : List Char → Option Nat
  | [] => none
  | cs => cs.foldl (fun acc c => do
      let a ← acc
      let d ← digitVal c
      pure (a * 10 + d)) (some 0)

/-- Model of Python `int(s)` on a string: an optional minus sign followed by
decimal digits; anything else raises (`none`). -/
def strToInt (s : String) : Option Int :=
  match s.data with
  | [] => none
  | c :: cs =>
      if c = Char.ofNat 45 then (parseDigits cs).map (fun n => -(n : Int))
      else (parseDigits (c :: cs)).map (fun n => (n : Int))

/-- Model of Python `int(v)`.  `none` models a raised exception
(`TypeError`/`ValueError`): `int` of `None` or of a dict raises, and `int` of
a non-numeric string raises.  Floats are truncated toward zero. -/
def pyInt : PyVal → Option Int
  | .vInt n => some n
  | .vBool b => some (if b then 1 else 0)
  | .vFloat q => some (if 0 ≤ q then ⌊q⌋ else ⌈q⌉)
  | .vStr s => strToInt s
  | .vNone => none
  | .vDict _ => none

instance {ε α : Type} [DecidableEq ε] [DecidableEq α] : DecidableEq (Except ε α) := fun x y =>
  match x, y with
  | .error a, .error b =>
      if h : a = b then .isTrue (by rw [h]) else .isFalse (fun hc => by cases hc; exact h rfl)
  | .ok a, .ok b =>
      if h : a = b then .isTrue (by rw [h]) else .isFalse (fun hc => by cases hc; exact h rfl)
  | .error a, .ok b => .isFalse (fun hc => by cases hc)
  | .ok a, .error b => .isFalse (fun hc => by cases hc)

/-- Dict lookup (`d.get(k)` flavour): value of the first entry whose key
matches, `none` when the key is absent. -/
def aget {β : Type} (fields : List (String × β)) (k : String) : Option β :=
  (fields.find? (fun p => p.1 == k)).map (fun p => p.2)

/-- Dict assignment `d[k] = v`: replace the value of the first entry with key
`k` in place, or append a new entry at the end (Python dicts keep insertion
order; assigning to an existing key does not move it). -/
def aset {β : Type} : List (String × β) → String → β → List (String × β)
  | [], k, v => [(k, v)]
  | (k₀, v₀) :: rest, k, v =>
      if k₀ == k then (k₀, v) :: rest else (k₀, v₀) :: aset rest k v

/-- Dict key membership (`k in d`). -/
def hasKey {β : Type} (fields : List (String × β)) (k : String) : Bool :=
  (aget fields k).isSome

/-- A persisted score mapping (`points_data`): JSON object from stable item
key to either a bare integer or a structured record. -/
abbrev PointsMap := List (String × PyVal)

/-- Model of `_get_points(points_data, key)` from
`helpers/plex_collection_manager.py`.  `.error ()` models a raised
exception: the bare-value branch is wrapped in `try/except` and never
raises, but `int(v.get("points") or 0)` in the dict branch is unguarded. -/
def get_points (points_data : PointsMap) (key : String) : Except Unit Int :=
  let v := (aget points_data key).getD (.vInt 0)
  match v with
  | .vDict fields =>
      if hasKey fields "points" then
        match pyInt (pyOr0 ((aget fields "points").getD .vNone)) with
        | some n => .ok n
        | none => .error ()
      else if hasKey fields "score" then
        match pyInt (pyOr0 ((aget fields "score").getD .vNone)) with
        | some n => .ok n
        | none => .error ()
      else .ok 0
  | v => .ok ((pyInt (pyOr0 v)).getD 0)

/-- Model of `_set_points(points_data, key, new_points)`: if the existing
value is a dict, update only its `points` field in place; otherwise store a
bare integer. -/
def set_points (points_data : PointsMap) (key : String) (new_points : Int) :
    PointsMap :=
  match aget points_data key with
  | some (.vDict fields) =>
      aset points_data key (.vDict (aset fields "points" (.vInt new_points)))
  | _ => aset points_data key (.vInt new_points)

theorem aget_nil {β : Type} (k : String) : aget ([] : List (String × β)) k = none := by
  simp [aget]

theorem aget_cons_self {β : Type} (k : String) (v : β) (rest : List (String × β)) :
    aget ((k, v) :: rest) k = some v := by
  simp [aget, List.find?_cons_of_pos]

theorem aget_cons_ne {β : Type} (k₀ : String) (v₀ : β) (rest : List (String × β))
    (k : String) (h : k₀ ≠ k) : aget ((k₀, v₀) :: rest) k = aget rest k := by
  have hb : (k₀ == k) = false := by simp [h]
  simp [aget, List.find?, hb]

theorem aset_cons_self {β : Type} (k : String) (v₀ v : β) (rest : List (String × β)) :
    aset ((k, v₀) :: rest) k v = (k, v) :: rest := by
  simp [aset]

theorem aset_cons_ne {β : Type} (k₀ : String) (v₀ : β) (rest : List (String × β))
    (k : String) (v : β) (h : k₀ ≠ k) :
    aset ((k₀, v₀) :: rest) k v = (k₀, v₀) :: aset rest k v := by
  simp [aset, h]

theorem aget_aset_self {β : Type} (fields : List (String × β)) (k : String) (v : β) :
    aget (aset fields k v) k = some v := by
  induction fields with
  | nil => simp [aset, aget_cons_self]
  | cons hd tl ih =>
      obtain ⟨k₀, v₀⟩ := hd
      by_cases h : k₀ = k
      · subst h
        rw [aset_cons_self, aget_cons_self]
      · rw [aset_cons_ne _ _ _ _ _ h, aget_cons_ne _ _ _ _ h]
        exact ih

theorem aget_aset_ne {β : Type} (fields : List (String × β)) (k k₂ : String) (v : β)
    (h : k ≠ k₂) : aget (aset fields k v) k₂ = aget fields k₂ := by
  induction fields with
  | nil => simp [aset, aget_cons_ne _ _ _ _ h, aget_nil]
  | cons hd tl ih =>
      obtain ⟨k₀, v₀⟩ := hd
      by_cases h₀ : k₀ = k
      · subst h₀
        rw [aset_cons_self, aget_cons_ne _ _ _ _ h, aget_cons_ne _ _ _ _ h]
      · rw [aset_cons_ne _ _ _ _ _ h₀]
        by_cases h₁ : k₀ = k₂
        · subst h₁
          rw [aget_cons_self, aget_cons_self]
        · rw [aget_cons_ne _ _ _ _ h₁, aget_cons_ne _ _ _ _ h₁]
          exact ih

theorem pyInt_pyOr0_vInt (n : Int) : pyInt (pyOr0 (.vInt n)) = some n := by
  by_cases h : n = 0 <;> simp [pyOr0, truthy, pyInt, h]

/-- After `set_points`, the value stored at the key. -/
theorem aget_set_points_self (m : PointsMap) (k : String) (n : Int) :
    aget (set_points m k n) k =
      some (match aget m k with
            | some (.vDict fields) => .vDict (aset fields "points" (.vInt n))
            | _ => .vInt n) := by
  unfold set_points
  match h : aget m k with
  | some (.vDict fields) => simp [h, aget_aset_self]
  | none => simp [h, aget_aset_self]
  | some .vNone => simp [h, aget_aset_self]
  | some (.vBool b) => simp [h, aget_aset_self]
  | some (.vInt i) => simp [h, aget_aset_self]
  | some (.vFloat q) => simp [h, aget_aset_self]
  | some (.vStr s) => simp [h, aget_aset_self]

theorem aget_set_points_ne (m : PointsMap) (k k₂ : String) (n : Int) (h : k ≠ k₂) :
    aget (set_points m k n) k₂ = aget m k₂ := by
  unfold set_points
  match aget m k with
  | some (.vDict fields) => exact aget_aset_ne _ _ _ _ h
  | none => exact aget_aset_ne _ _ _ _ h
  | some .vNone => exact aget_aset_ne _ _ _ _ h
  | some (.vBool b) => exact aget_aset_ne _ _ _ _ h
  | some (.vInt i) => exact aget_aset_ne _ _ _ _ h
  | some (.vFloat q) => exact aget_aset_ne _ _ _ _ h
  | some (.vStr s) => exact aget_aset_ne _ _ _ _ h

theorem get_points_of_vInt (m : PointsMap) (k : String) (n : Int)
    (h : aget m k = some (.vInt n)) : get_points m k = .ok n := by
  simp [get_points, h, pyInt_pyOr0_vInt]

/-- Claim C4 counterexample: the claim says `get_points` never raises and
returns a non-negative integer for object-form values, but a stored value
`{"points": "ten"}` makes the unguarded `int(... or 0)` in the dict branch
raise, and a stored `{"points": -3}` is returned as the negative `-3`. -/
theorem get_points_raises_counterexample :
    get_points [("k", PyVal.vDict [("points", PyVal.vStr "ten")])] "k" = .error () ∧
    get_points [("k", PyVal.vDict [("points", PyVal.vInt (-3))])] "k" = .ok (-3) ∧
    ¬ (0 : Int) ≤ -3 := by
  refine ⟨by decide, by decide, by decide⟩

/-- Claim C4 (amended): `get_points` returns 0 when the key is absent,
returns the stored integer `n` (non-negative exactly when `n` is) for an
object value whose `points` field holds an integer, returns a bare integer
value as itself, resolves a dict with neither `points` nor `score` to 0,
and never raises for any non-dict stored value (the bare branch is guarded
by `try/except`); only a non-int-convertible value inside the `points` or
`score` field of an object can raise. -/
theorem get_points_tolerant_accessor :
    ∀ (m : PointsMap) (k : String),
      (hasKey m k = false → get_points m k = .ok 0) ∧
      (∀ (n : Int) fields, aget m k = some (.vDict fields) →
        aget fields "points" = some (.vInt n) → get_points m k = .ok n) ∧
      (∀ n : Int, aget m k = some (.vInt n) → get_points m k = .ok n) ∧
      (∀ fields, aget m k = some (.vDict fields) → hasKey fields "points" = false →
        hasKey fields "score" = false → get_points m k = .ok 0) ∧
      (∀ v, aget m k = some v → (∀ fields, v ≠ .vDict fields) →
        (get_points m k).isOk = true) := by
  intro m k
  refine ⟨?_, ?_, ?_, ?_, ?_⟩
  · intro h
    have hnone : aget m k = none := by
      cases hm : aget m k with
      | none => rfl
      | some v => rw [hasKey, hm] at h; simp at h
    simp [get_points, hnone, pyInt_pyOr0_vInt]
  · intro n fields hm hp
    simp [get_points, hm, hasKey, hp, pyInt_pyOr0_vInt]
  · intro n hm
    exact get_points_of_vInt m k n hm
  · intro fields hm hp hs
    simp [get_points, hm, hp, hs]
  · intro v hm hnd
    cases v with
    | vDict fields => exact absurd rfl (hnd fields)
    | vNone => simp [get_points, hm, pyOr0, truthy, pyInt, Except.isOk, Except.toBool]
    | vBool b => cases b <;> simp [get_points, hm, pyOr0, truthy, pyInt, Except.isOk, Except.toBool]
    | vInt n => simp [get_points, hm, pyInt_pyOr0_vInt, Except.isOk, Except.toBool]
    | vFloat q =>
        by_cases hq : q = 0 <;>
          simp [get_points, hm, pyOr0, truthy, pyInt, hq, Except.isOk, Except.toBool]
    | vStr s =>
        by_cases hs : s = "" <;>
          simp [get_points, hm, pyOr0, truthy, pyInt, hs, Except.isOk, Except.toBool]

/-- Witness for `get_points_tolerant_accessor` at concrete inputs. -/
theorem get_points_tolerant_accessor_witness :
    get_points [] "k" = .ok 0 ∧
    get_points [("k", PyVal.vDict [("points", PyVal.vInt 3), ("title", PyVal.vStr "T")])] "k" = .ok 3 ∧
    get_points [("k", PyVal.vInt 7)] "k" = .ok 7 ∧
    get_points [("k", PyVal.vDict [("title", PyVal.vStr "T")])] "k" = .ok 0 ∧
    (get_points [("k", PyVal.vStr "junk")] "k").isOk = true :=
  ⟨(get_points_tolerant_accessor [] "k").1 rfl,
   (get_points_tolerant_accessor _ "k").2.1 3 _ rfl rfl,
   (get_points_tolerant_accessor _ "k").2.2.1 7 rfl,
   (get_points_tolerant_accessor _ "k").2.2.2.1 _ rfl rfl rfl,
   (get_points_tolerant_accessor _ "k").2.2.2.2 _ rfl
     (fun _ h => PyVal.noConfusion h)⟩

/-- Claim C5: `set_points` followed by `get_points` on the same key returns
the just-set value, and when the prior value was an object, only its
`points` field is updated: every other field survives unchanged. -/
theorem set_points_get_points_frame :
    ∀ (m : PointsMap) (k : String) (n : Int),
      get_points (set_points m k n) k = .ok n ∧
      (∀ fields, aget m k = some (.vDict fields) →
        aget (set_points m k n) k =
          some (.vDict (aset fields "points" (.vInt n))) ∧
        ∀ f, f ≠ "points" →
          aget (aset fields "points" (.vInt n)) f = aget fields f) := by
  intro m k n
  have h := aget_set_points_self m k n
  constructor
  · cases hm : aget m k with
    | none =>
        rw [hm] at h
        exact get_points_of_vInt _ _ _ h
    | some v =>
        cases v with
        | vDict fields =>
            rw [hm] at h
            have h₂ : aget (set_points m k n) k =
                some (.vDict (aset fields "points" (.vInt n))) := h
            simp [get_points, h₂, hasKey, aget_aset_self, pyInt_pyOr0_vInt]
        | vNone => rw [hm] at h; exact get_points_of_vInt _ _ _ h
        | vBool b => rw [hm] at h; exact get_points_of_vInt _ _ _ h
        | vInt i => rw [hm] at h; exact get_points_of_vInt _ _ _ h
        | vFloat q => rw [hm] at h; exact get_points_of_vInt _ _ _ h
        | vStr s => rw [hm] at h; exact get_points_of_vInt _ _ _ h
  · intro fields hm
    refine ⟨by rw [hm] at h; exact h, ?_⟩
    intro f hf
    exact aget_aset_ne fields "points" f (.vInt n) (Ne.symm hf)

/-- Witness for `set_points_get_points_frame`: setting 9 points over a
record that also stores a title returns 9 and keeps the title. -/
theorem set_points_get_points_frame_witness :
    get_points (set_points
      [("k", PyVal.vDict [("title", PyVal.vStr "Movie"), ("points", PyVal.vInt 2)])]
      "k" 9) "k" = .ok 9 ∧
    aget (aset [("title", PyVal.vStr "Movie"), ("points", PyVal.vInt 2)]
      "points" (PyVal.vInt 9)) "title" = some (PyVal.vStr "Movie") :=
  ⟨(set_points_get_points_frame _ "k" 9).1,
   ((set_points_get_points_frame
      [("k", PyVal.vDict [("title", PyVal.vStr "Movie"), ("points", PyVal.vInt 2)])]
      "k" 9).2 _ rfl).2 "title" (by decide)⟩

/-- ASCII lowering of one character (model of `str.lower()` per char). -/
def charLower (c : Char) : Char :=
  if 65 ≤ c.toNat ∧ c.toNat ≤ 90 then Char.ofNat (c.toNat + 32) else c

/-- Model of Python `str.lower()` (ASCII range). -/
def strLower (s : String) : String := ⟨s.data.map charLower⟩

/-- A library item as consumed by the collection manager: a stable numeric
rating key, a display title, and a media type string. -/
structure PlexItem where
  ratingKey : Nat
  title : String
  mediaType : String
deriving DecidableEq

/-- The stable string key of an item (`str(item.ratingKey)`). -/
def itemKey (i : PlexItem) : String := toString i.ratingKey

theorem aget_eq_none {β : Type} (m : List (String × β)) (k : String)
    (h : hasKey m k = false) : aget m k = none := by
  cases hm : aget m k with
  | none => rfl
  | some v => rw [hasKey, hm] at h; simp at h

/-- Insert `x` in front of the first element `y` with `le x y`; used to model
Python's stable `list.sort`. -/
def insertGe {α : Type} (le : α → α → Bool) (x : α) : List α → List α
  | [] => [x]
  | y :: ys => if le x y then x :: y :: ys else y :: insertGe le x ys

/-- Stable insertion sort: for a total preorder comparator this computes the
same output as any stable sort (CPython's `list.sort` included). -/
def stableSortBy {α : Type} (le : α → α → Bool) : List α → List α
  | [] => []
  | x :: xs => insertGe le x (stableSortBy le xs)

theorem mem_insertGe {α : Type} (le : α → α → Bool) (x a : α) (l : List α) :
    a ∈ insertGe le x l ↔ a = x ∨ a ∈ l := by
  induction l with
  | nil => simp [insertGe]
  | cons y ys ih =>
      by_cases h : le x y = true
      · simp [insertGe, h]
      · have hf : le x y = false := by simpa using h
        simp only [insertGe, hf, Bool.false_eq_true, if_false, List.mem_cons, ih]
        tauto

theorem mem_stableSortBy {α : Type} (le : α → α → Bool) (a : α) (l : List α) :
    a ∈ stableSortBy le l ↔ a ∈ l := by
  induction l with
  | nil => simp [stableSortBy]
  | cons x xs ih => simp [stableSortBy, mem_insertGe, ih]

theorem pairwise_insertGe {α : Type} (le : α → α → Bool)
    (htot : ∀ a b, le a b = true ∨ le b a = true)
    (htr : ∀ a b c, le a b = true → le b c = true → le a c = true)
    (x : α) (l : List α) (h : l.Pairwise (fun a b => le a b = true)) :
    (insertGe le x l).Pairwise (fun a b => le a b = true) := by
  induction l with
  | nil => simp [insertGe]
  | cons y ys ih =>
      by_cases hxy : le x y = true
      · simp only [insertGe, hxy, if_true]
        refine List.Pairwise.cons ?_ h
        intro z hz
        rw [List.mem_cons] at hz
        rcases hz with rfl | hz
        · exact hxy
        · exact htr x y z hxy (List.rel_of_pairwise_cons h hz)
      · have hyx : le y x = true := (htot x y).resolve_left hxy
        have hf : le x y = false := by simpa using hxy
        simp only [insertGe, hf, Bool.false_eq_true, if_false]
        refine List.Pairwise.cons ?_ (ih (List.Pairwise.of_cons h))
        intro z hz
        rw [mem_insertGe] at hz
        rcases hz with rfl | hz
        · exact hyx
        · exact List.rel_of_pairwise_cons h hz

theorem pairwise_stableSortBy {α : Type} (le : α → α → Bool)
    (htot : ∀ a b, le a b = true ∨ le b a = true)
    (htr : ∀ a b c, le a b = true → le b c = true → le a c = true)
    (l : List α) :
    (stableSortBy le l).Pairwise (fun a b => le a b = true) := by
  induction l with
  | nil => simp [stableSortBy]
  | cons x xs ih => exact pairwise_insertGe le htot htr x _ ih

/-- Descending lexicographic comparison on a `(points, lowercased title)`
sort key, mirroring `sort(key=..., reverse=True)` on an `(int, str)` tuple:
`a` sorts before `b` iff `a`'s key is lexicographically ≥ `b`'s. -/
def pairGeIS (a b : Int × String) : Bool :=
  decide (b.1 < a.1 ∨ (a.1 = b.1 ∧ b.2 ≤ a.2))

/-- The run items are merged over the existing items into one dict keyed by
`str(ratingKey)` (`by_key` in `build_final_items_with_points`). -/
def byKeyDict (existing run : List PlexItem) : List (String × PlexItem) :=
  run.foldl (fun acc i => aset acc (itemKey i) i)
    (existing.foldl (fun acc i => aset acc (itemKey i) i) [])

/-- The `ensure points exist` loop: every candidate key absent from
`points_data` is initialized to 0. -/
def ensure_points (pd : PointsMap) : List (String × PlexItem) → PointsMap
  | [] => pd
  | kv :: rest =>
      ensure_points (if hasKey pd kv.1 then pd else set_points pd kv.1 0) rest

/-- The `boost this run` loop: every key suggested in this run is incremented
by 1 via `_set_points(pd, k, _get_points(pd, k) + 1)`; a raising
`_get_points` propagates. -/
def boost_points (pd : PointsMap) : List String → Except Unit PointsMap
  | [] => .ok pd
  | k :: rest =>
      match get_points pd k with
      | .error e => .error e
      | .ok p => boost_points (set_points pd k (p + 1)) rest

/-- Computing the sort keys for all candidate items (CPython's `list.sort`
with a `key` function computes every key before comparing). -/
def decorate (pd : PointsMap) : List PlexItem → Except Unit (List (Int × PlexItem))
  | [] => .ok []
  | it :: rest =>
      match get_points pd (itemKey it) with
      | .error e => .error e
      | .ok p =>
          match decorate pd rest with
          | .error e => .error e
          | .ok ds => .ok ((p, it) :: ds)

/-- Model of `build_final_items_with_points` from
`src/tautulli_curated/helpers/plex_collection_manager.py`: dedup existing
and run items by key, initialize missing scores to 0, increment this run's
keys by 1, and return all items sorted by `(points, title.lower())`
descending, together with this run's keys and the updated score map. -/
def build_final_items_with_points (existing run : List PlexItem) (pd : PointsMap) :
    Except Unit (List PlexItem × List String × PointsMap) := do
  let byKey := byKeyDict existing run
  let suggested := run.map itemKey
  let pd₁ := ensure_points pd byKey
  let pd₂ ← boost_points pd₁ suggested
  let decorated ← decorate pd₂ (byKey.map (fun kv => kv.2))
  let sorted := stableSortBy
      (fun a b => pairGeIS (a.1, strLower a.2.title) (b.1, strLower b.2.title)) decorated
  pure (sorted.map (fun d => d.2), suggested, pd₂)

theorem hasKey_congr {β : Type} (m₁ m₂ : List (String × β)) (k : String)
    (h : aget m₁ k = aget m₂ k) : hasKey m₁ k = hasKey m₂ k := by
  rw [hasKey, hasKey, h]

theorem aget_ensure_points (bk : List (String × PlexItem)) (pd : PointsMap)
    (k : String) :
    aget (ensure_points pd bk) k =
      if hasKey pd k then aget pd k
      else if k ∈ bk.map Prod.fst then some (.vInt 0)
      else none := by
  induction bk generalizing pd with
  | nil =>
      cases h : hasKey pd k with
      | true => simp [ensure_points, h]
      | false => simp [ensure_points, h, aget_eq_none pd k h]
  | cons kv rest ih =>
      obtain ⟨k₀, it₀⟩ := kv
      by_cases h₀ : hasKey pd k₀ = true
      · have : ensure_points pd ((k₀, it₀) :: rest) = ensure_points pd rest := by
          simp [ensure_points, h₀]
        rw [this, ih]
        by_cases hk : hasKey pd k = true
        · simp [hk]
        · by_cases hkk : k = k₀
          · subst hkk; rw [h₀] at hk; simp at hk
          · have hmem : (k ∈ k₀ :: List.map Prod.fst rest) ↔
                k ∈ List.map Prod.fst rest := by simp [hkk]
            rw [if_neg hk, if_neg hk]
            exact (if_congr hmem.symm rfl rfl)
      · have hf : hasKey pd k₀ = false := by simpa using h₀
        have hset : set_points pd k₀ 0 = aset pd k₀ (.vInt 0) := by
          rw [set_points, aget_eq_none pd k₀ hf]
        have : ensure_points pd ((k₀, it₀) :: rest) =
            ensure_points (aset pd k₀ (.vInt 0)) rest := by
          simp [ensure_points, hf, hset]
        rw [this, ih]
        by_cases hkk : k = k₀
        · subst hkk
          have h₁ : aget (aset pd k (.vInt 0)) k = some (.vInt 0) := aget_aset_self pd k _
          have h₂ : hasKey (aset pd k (.vInt 0)) k = true := by rw [hasKey, h₁]; rfl
          simp [h₂, h₁, hf]
        · have h₁ : aget (aset pd k₀ (.vInt 0)) k = aget pd k :=
            aget_aset_ne pd k₀ k _ (Ne.symm hkk)
          have h₂ : hasKey (aset pd k₀ (.vInt 0)) k = hasKey pd k :=
            hasKey_congr _ _ _ h₁
          rw [h₂, h₁]
          by_cases hk : hasKey pd k = true
          · simp [hk]
          · have hmem : (k ∈ k₀ :: List.map Prod.fst rest) ↔
                k ∈ List.map Prod.fst rest := by simp [hkk]
            rw [if_neg hk, if_neg hk]
            exact (if_congr hmem.symm rfl rfl)

theorem mem_keys_aset {β : Type} (l : List (String × β)) (k k₂ : String) (v : β) :
    k₂ ∈ (aset l k v).map Prod.fst ↔ k₂ = k ∨ k₂ ∈ l.map Prod.fst := by
  induction l with
  | nil => simp [aset]
  | cons hd tl ih =>
      obtain ⟨k₀, v₀⟩ := hd
      by_cases h : k₀ = k
      · subst h
        rw [aset_cons_self]
        simp
      · rw [aset_cons_ne _ _ _ _ _ h]
        simp only [List.map_cons, List.mem_cons, ih]
        tauto

theorem mem_keys_foldl_aset (items : List PlexItem) (l : List (String × PlexItem))
    (k : String) :
    k ∈ (items.foldl (fun acc i => aset acc (itemKey i) i) l).map Prod.fst ↔
      k ∈ l.map Prod.fst ∨ k ∈ items.map itemKey := by
  induction items generalizing l with
  | nil => simp
  | cons it rest ih =>
      simp only [List.foldl_cons, ih, mem_keys_aset, List.map_cons, List.mem_cons]
      tauto

theorem mem_keys_byKeyDict (existing run : List PlexItem) (k : String) :
    k ∈ (byKeyDict existing run).map Prod.fst ↔
      k ∈ existing.map itemKey ∨ k ∈ run.map itemKey := by
  rw [byKeyDict, mem_keys_foldl_aset, mem_keys_foldl_aset]
  simp

theorem aget_set_points_of_nondict (pd : PointsMap) (k : String) (n : Int)
    (h : ∀ fields, aget pd k ≠ some (.vDict fields)) :
    aget (set_points pd k n) k = some (.vInt n) := by
  have hs := aget_set_points_self pd k n
  cases hm : aget pd k with
  | none => rw [hm] at hs; exact hs
  | some v =>
      cases v with
      | vDict fields => exact absurd hm (h fields)
      | vNone => rw [hm] at hs; exact hs
      | vBool b => rw [hm] at hs; exact hs
      | vInt i => rw [hm] at hs; exact hs
      | vFloat q => rw [hm] at hs; exact hs
      | vStr s => rw [hm] at hs; exact hs

theorem aget_boost_points_of_vInt (sug : List String) (pd pd₂ : PointsMap)
    (k : String) (m : Int) (hk : aget pd k = some (.vInt m)) (hnd : sug.Nodup)
    (h : boost_points pd sug = .ok pd₂) :
    aget pd₂ k = some (.vInt (if k ∈ sug then m + 1 else m)) := by
  induction sug generalizing pd m with
  | nil =>
      simp only [boost_points, Except.ok.injEq] at h
      subst h
      simpa using hk
  | cons s rest ih =>
      simp only [boost_points] at h
      cases hg : get_points pd s with
      | error e => rw [hg] at h; simp at h
      | ok p =>
          rw [hg] at h
          by_cases hks : k = s
          · subst hks
            rw [get_points_of_vInt pd k m hk] at hg
            have hp : p = m := by
              have := hg
              simp only [Except.ok.injEq] at this
              omega
            subst hp
            have hset : aget (set_points pd k (p + 1)) k = some (.vInt (p + 1)) := by
              apply aget_set_points_of_nondict
              intro fields hc
              rw [hk] at hc
              simp at hc
            have hkrest : k ∉ rest := (List.nodup_cons.mp hnd).1
            have := ih (set_points pd k (p + 1)) (p + 1) hset
              (List.nodup_cons.mp hnd).2 h
            rw [this]
            simp [hkrest]
          · have hset : aget (set_points pd s (p + 1)) k = aget pd k :=
              aget_set_points_ne pd s k (p + 1) (Ne.symm hks)
            have := ih (set_points pd s (p + 1)) m (hset.trans hk)
              (List.nodup_cons.mp hnd).2 h
            rw [this]
            simp [hks]

theorem build_ok_elim (existing run : List PlexItem) (pd : PointsMap)
    (f : List PlexItem) (s : List String) (pd₂ : PointsMap)
    (h : build_final_items_with_points existing run pd = .ok (f, s, pd₂)) :
    s = run.map itemKey ∧
    boost_points (ensure_points pd (byKeyDict existing run)) (run.map itemKey) =
      .ok pd₂ := by
  simp only [build_final_items_with_points, bind, Except.bind, pure, Except.pure] at h
  split at h
  · exact absurd h (by simp)
  · next pdB hbeq =>
      split at h
      · exact absurd h (by simp)
      · next ds hdeq =>
          simp only [Except.ok.injEq, Prod.mk.injEq] at h
          exact ⟨h.2.1.symm, by rw [hbeq, h.2.2]⟩

theorem build_single_fresh (it : PlexItem) (pd : PointsMap)
    (h : aget pd (itemKey it) = none) :
    build_final_items_with_points [] [it] pd =
      .ok ([it], [itemKey it],
        aset (aset pd (itemKey it) (.vInt 0)) (itemKey it) (.vInt 1)) := by
  have hkf : hasKey pd (itemKey it) = false := by rw [hasKey, h]; rfl
  have hsp : set_points pd (itemKey it) 0 = aset pd (itemKey it) (.vInt 0) := by
    simp only [set_points, h]
  have h₁ : aget (aset pd (itemKey it) (.vInt 0)) (itemKey it) = some (.vInt 0) :=
    aget_aset_self _ _ _
  have hg₁ : get_points (aset pd (itemKey it) (.vInt 0)) (itemKey it) = .ok 0 :=
    get_points_of_vInt _ _ _ h₁
  have hsp₂ : set_points (aset pd (itemKey it) (.vInt 0)) (itemKey it) 1 =
      aset (aset pd (itemKey it) (.vInt 0)) (itemKey it) (.vInt 1) := by
    simp only [set_points, h₁]
  have h₂ : aget (aset (aset pd (itemKey it) (.vInt 0)) (itemKey it) (.vInt 1))
      (itemKey it) = some (.vInt 1) := aget_aset_self _ _ _
  have hg₂ : get_points (aset (aset pd (itemKey it) (.vInt 0)) (itemKey it) (.vInt 1))
      (itemKey it) = .ok 1 := get_points_of_vInt _ _ _ h₂
  simp [build_final_items_with_points, byKeyDict, ensure_points, hkf, hsp,
    boost_points, hg₁, hsp₂, decorate, hg₂, stableSortBy, insertGe, aset,
    bind, Except.bind, pure, Except.pure]

theorem build_single_again (it : PlexItem) (pd : PointsMap) (m : Int)
    (h : aget pd (itemKey it) = some (.vInt m)) :
    build_final_items_with_points [it] [it] pd =
      .ok ([it], [itemKey it], aset pd (itemKey it) (.vInt (m + 1))) := by
  have hkt : hasKey pd (itemKey it) = true := by rw [hasKey, h]; rfl
  have hg₁ : get_points pd (itemKey it) = .ok m := get_points_of_vInt _ _ _ h
  have hsp : set_points pd (itemKey it) (m + 1) =
      aset pd (itemKey it) (.vInt (m + 1)) := by
    simp only [set_points, h]
  have h₂ : aget (aset pd (itemKey it) (.vInt (m + 1))) (itemKey it) =
      some (.vInt (m + 1)) := aget_aset_self _ _ _
  have hg₂ : get_points (aset pd (itemKey it) (.vInt (m + 1))) (itemKey it) =
      .ok (m + 1) := get_points_of_vInt _ _ _ h₂
  simp [build_final_items_with_points, byKeyDict, ensure_points, hkt, hg₁, hsp,
    boost_points, decorate, hg₂, stableSortBy, insertGe, aset,
    bind, Except.bind, pure, Except.pure]

/-- Claim C6: in the monotonic variant (`build_final_items_with_points`),
a candidate key absent from the score mapping is initialized to 0 and then
incremented by exactly 1 iff it is among this run's freshly recommended
keys; consequently a key freshly recommended on each of three consecutive
runs (with no other changes) scores 1, then 2, then 3. -/
theorem build_final_items_monotonic_score :
    (∀ (existing run : List PlexItem) (pd : PointsMap) (k : String)
        (f : List PlexItem) (s : List String) (pd₂ : PointsMap),
        build_final_items_with_points existing run pd = .ok (f, s, pd₂) →
        hasKey pd k = false →
        (run.map itemKey).Nodup →
        (k ∈ existing.map itemKey ∨ k ∈ run.map itemKey) →
        get_points pd₂ k = .ok (if k ∈ run.map itemKey then 1 else 0)) ∧
    (∀ (pd : PointsMap) (it : PlexItem), hasKey pd (itemKey it) = false →
        ∃ pd₁ pd₂ pd₃,
          build_final_items_with_points [] [it] pd =
            .ok ([it], [itemKey it], pd₁) ∧
          get_points pd₁ (itemKey it) = .ok 1 ∧
          build_final_items_with_points [it] [it] pd₁ =
            .ok ([it], [itemKey it], pd₂) ∧
          get_points pd₂ (itemKey it) = .ok 2 ∧
          build_final_items_with_points [it] [it] pd₂ =
            .ok ([it], [itemKey it], pd₃) ∧
          get_points pd₃ (itemKey it) = .ok 3) := by
  constructor
  · intro existing run pd k f s pd₂ h hfresh hnodup hcand
    obtain ⟨hs, hb⟩ := build_ok_elim existing run pd f s pd₂ h
    have hens : aget (ensure_points pd (byKeyDict existing run)) k =
        some (.vInt 0) := by
      rw [aget_ensure_points]
      rw [if_neg (by simp [hfresh])]
      rw [if_pos ((mem_keys_byKeyDict existing run k).mpr hcand)]
    have hba := aget_boost_points_of_vInt (run.map itemKey) _ pd₂ k 0 hens hnodup hb
    have hgp := get_points_of_vInt pd₂ k _ hba
    by_cases hmem : k ∈ run.map itemKey
    · simpa [hmem] using hgp
    · simpa [hmem] using hgp
  · intro pd it hfresh
    have h₀ : aget pd (itemKey it) = none := aget_eq_none _ _ hfresh
    have hb₁ := build_single_fresh it pd h₀
    have ha₁ : aget (aset (aset pd (itemKey it) (.vInt 0)) (itemKey it) (.vInt 1))
        (itemKey it) = some (.vInt 1) := aget_aset_self _ _ _
    have hb₂ := build_single_again it _ 1 ha₁
    have ha₂ : aget (aset (aset (aset pd (itemKey it) (.vInt 0)) (itemKey it)
        (.vInt 1)) (itemKey it) (.vInt (1 + 1))) (itemKey it) =
        some (.vInt (1 + 1)) := aget_aset_self _ _ _
    have hb₃ := build_single_again it _ (1 + 1) ha₂
    have ha₃ : aget (aset (aset (aset (aset pd (itemKey it) (.vInt 0)) (itemKey it)
        (.vInt 1)) (itemKey it) (.vInt (1 + 1))) (itemKey it) (.vInt (1 + 1 + 1)))
        (itemKey it) = some (.vInt (1 + 1 + 1)) := aget_aset_self _ _ _
    refine ⟨_, _, _, hb₁, get_points_of_vInt _ _ _ ha₁, hb₂, ?_, hb₃, ?_⟩
    · simpa using get_points_of_vInt _ _ _ ha₂
    · simpa using get_points_of_vInt _ _ _ ha₃

/-- Witness for `build_final_items_monotonic_score`: a fresh item keyed "5"
recommended on three consecutive runs starting from an empty score map. -/
theorem build_final_items_monotonic_score_witness :
    ∃ pd₁ pd₂ pd₃,
      build_final_items_with_points [] [PlexItem.mk 5 "Alpha" "movie"] [] =
        .ok ([PlexItem.mk 5 "Alpha" "movie"], [itemKey (PlexItem.mk 5 "Alpha" "movie")], pd₁) ∧
      get_points pd₁ (itemKey (PlexItem.mk 5 "Alpha" "movie")) = .ok 1 ∧
      build_final_items_with_points [PlexItem.mk 5 "Alpha" "movie"]
          [PlexItem.mk 5 "Alpha" "movie"] pd₁ =
        .ok ([PlexItem.mk 5 "Alpha" "movie"], [itemKey (PlexItem.mk 5 "Alpha" "movie")], pd₂) ∧
      get_points pd₂ (itemKey (PlexItem.mk 5 "Alpha" "movie")) = .ok 2 ∧
      build_final_items_with_points [PlexItem.mk 5 "Alpha" "movie"]
          [PlexItem.mk 5 "Alpha" "movie"] pd₂ =
        .ok ([PlexItem.mk 5 "Alpha" "movie"], [itemKey (PlexItem.mk 5 "Alpha" "movie")], pd₃) ∧
      get_points pd₃ (itemKey (PlexItem.mk 5 "Alpha" "movie")) = .ok 3 :=
  build_final_items_monotonic_score.2 [] (PlexItem.mk 5 "Alpha" "movie") rfl

/-- A raised Python exception relevant to the reconciler. -/
inductive PyErr where
  | attributeErrorNone
  | externalError
deriving DecidableEq

/-- A mutating call issued against the Plex server. -/
inductive PlexCall where
  | removeItems (items : List PlexItem)
  | addItems (items : List PlexItem)
  | createCollection (items : List PlexItem)
  | moveItem (id : Nat) (anchor : Option Nat)
deriving DecidableEq

/-- The Diff step of `refresh_collection_with_points`: `to_remove` is every
current item whose key is not desired, `to_add` is every desired item whose
key is not current (set membership by `str(ratingKey)`). -/
def diffByKey (current desired : List PlexItem) : List PlexItem × List PlexItem :=
  let currentIds := current.map itemKey
  let desiredIds := desired.map itemKey
  (current.filter (fun i => decide (itemKey i ∉ desiredIds)),
   desired.filter (fun i => decide (itemKey i ∉ currentIds)))

/-- The Apply step of `refresh_collection_with_points`: one batched remove
(skipped when empty) then one batched add (skipped when empty), both invoked
on the `collection` object — which is `None` when the collection did not
exist, so a non-empty batch then raises `AttributeError`. -/
def diff_apply_calls (collectionExists : Bool) (current finalItems : List PlexItem) :
    Except PyErr (List PlexCall) := do
  let (toRemove, toAdd) := diffByKey current finalItems
  let removeCalls ← if toRemove.isEmpty then pure []
    else if collectionExists then pure [PlexCall.removeItems toRemove]
    else throw PyErr.attributeErrorNone
  let addCalls ← if toAdd.isEmpty then pure []
    else if collectionExists then pure [PlexCall.addItems toAdd]
    else throw PyErr.attributeErrorNone
  pure (removeCalls ++ addCalls)

/-- External outcomes driving one `_apply_custom_order` run: whether
`sortUpdate(sort="custom")` succeeds, whether the snapshot fetch
`collection.items()` succeeds, and which item ids' move requests raise. -/
structure ReorderEnv where
  sortUpdateOk : Bool
  snapshotFetchOk : Bool
  moveFails : Nat → Bool

/-- Summary of a reorder pass: the move calls issued (item id and `after`
anchor), the successful-move counter and the failed-move list. -/
structure ReorderResult where
  moveCalls : List (Nat × Option Nat)
  successfulMoves : Nat
  failedMoves : List Nat
deriving DecidableEq

/-- The anchor used for the current move: the previously moved item id,
reset to head (`none`) only when that id is not in the snapshot. -/
def anchorFor (snapshot : List Nat) : Option Nat → Option Nat
  | none => none
  | some p => if p ∈ snapshot then some p else none

/-- The per-item move loop of the current `_apply_custom_order`: items not in
the snapshot are recorded as failed without a move call; the anchor falls
back to head only when the previous id is not in the snapshot; a failing
move is logged and skipped without advancing the anchor. -/
def moveLoop (fails : Nat → Bool) (snapshot : List Nat) :
    Option Nat → List Nat → ReorderResult
  | _, [] => ⟨[], 0, []⟩
  | prev, id :: rest =>
      if id ∈ snapshot then
        let anchor := anchorFor snapshot prev
        if fails id then
          let r := moveLoop fails snapshot anchor rest
          ⟨(id, anchor) :: r.moveCalls, r.successfulMoves, id :: r.failedMoves⟩
        else
          let r := moveLoop fails snapshot (some id) rest
          ⟨(id, anchor) :: r.moveCalls, r.successfulMoves + 1, r.failedMoves⟩
      else
        let r := moveLoop fails snapshot prev rest
        ⟨r.moveCalls, r.successfulMoves, id :: r.failedMoves⟩

/-- Model of `_apply_custom_order` from
`src/tautulli_curated/helpers/plex_collection_manager.py`: if setting the
sort mode to custom fails, return immediately with no moves; otherwise walk
the ordered ids (snapshot degraded to empty when its fetch fails); the outer
`try/except` absorbs everything, so the function always returns a summary. -/
def apply_custom_order (env : ReorderEnv) (collectionIds orderedIds : List Nat) :
    ReorderResult :=
  if env.sortUpdateOk then
    let snapshot := if env.snapshotFetchOk then collectionIds else []
    moveLoop env.moveFails snapshot none orderedIds
  else ⟨[], 0, []⟩

/-- The per-item move loop of the legacy `_apply_custom_order`
(`helpers/plex_collection_manager.py`): no snapshot check, no per-move
`try/except`, so the first failing move raises to the caller. -/
def legacyMoveLoop (moveFails : Nat → Bool) :
    Option Nat → List Nat → Except PyErr (List (Nat × Option Nat))
  | _, [] => .ok []
  | prev, id :: rest =>
      if moveFails id then .error .externalError
      else
        match legacyMoveLoop moveFails (some id) rest with
        | .error e => .error e
        | .ok cs => .ok ((id, prev) :: cs)

/-- Model of the legacy `_apply_custom_order`: only the `sortUpdate` call is
guarded; a failing per-item move propagates. -/
def apply_custom_order_legacy (sortUpdateOk : Bool) (moveFails : Nat → Bool)
    (orderedIds : List Nat) : Except PyErr (List (Nat × Option Nat)) :=
  if sortUpdateOk then legacyMoveLoop moveFails none orderedIds else .ok []

/-- The move calls a fully tolerant reorder should issue when exactly the
move of item `k` fails: every item gets a call, anchored on the last
successfully moved item (the anchor is not advanced past `k`). -/
def expectedMoveCalls (k : Nat) : Option Nat → List Nat → List (Nat × Option Nat)
  | _, [] => []
  | prev, id :: rest =>
      (id, prev) :: expectedMoveCalls k (if id = k then prev else some id) rest

/-- Model of `refresh_collection_with_points` (diff-update reconciliation
path): fetch (a missing collection yields no existing items but leaves
`collection = None`), score/build, diff, apply, then the optional randomized
reorder.  The reorder snapshot is the post-apply membership, i.e. the final
item set. -/
def refresh_collection_with_points (collectionExists : Bool)
    (existingItems runItems : List PlexItem) (pd : PointsMap)
    (randomize : Bool) (renv : ReorderEnv)
    (shuffle : List PlexItem → List PlexItem) :
    Except PyErr (List PlexCall) := do
  let existing := if collectionExists then existingItems else []
  match build_final_items_with_points existing runItems pd with
  | .error _ => throw PyErr.externalError
  | .ok (finalItems, _suggested, _pd₂) =>
      let updateCalls ← diff_apply_calls collectionExists existing finalItems
      if randomize then
        let shuffled := shuffle finalItems
        let r := apply_custom_order renv (finalItems.map (fun i => i.ratingKey))
          (shuffled.map (fun i => i.ratingKey))
        pure (updateCalls ++ r.moveCalls.map (fun c => PlexCall.moveItem c.1 c.2))
      else
        pure updateCalls

/-- External outcomes driving one `apply_collection_state_to_plex` run. -/
structure ApplyEnv where
  connectionOk : Bool
  sectionOk : Bool
  removeOk : Bool
  createOk : Bool
  addOk : Bool
  reorder : ReorderEnv

/-- The fetch-and-filter loop of `apply_collection_state_to_plex`: resolve
each rating key (`_fetch_by_rating_key` returns `None` on any failure) and
keep only items whose type is `movie`; unresolved keys are collected. -/
def fetchDesired (fetch : String → Option PlexItem) :
    List String → List PlexItem × List String
  | [] => ([], [])
  | rk :: rest =>
      let acc := fetchDesired fetch rest
      match fetch rk with
      | some it =>
          if strLower it.mediaType == "movie" then (it :: acc.1, acc.2)
          else acc
      | none => (acc.1, rk :: acc.2)

/-- Model of `apply_collection_state_to_plex` (teardown/rebuild path):
verify connection and section (failures re-raise), resolve and type-filter
the desired keys, remove all existing items, then either create the
collection with the desired items (when it did not exist) or batch-add
them, and finally run the custom reorder (absorbed failures). -/
def apply_collection_state_to_plex (env : ApplyEnv) (collectionExists : Bool)
    (existingItems : List PlexItem) (ratingKeys : List String)
    (fetch : String → Option PlexItem) :
    Except PyErr (List PlexCall × ReorderResult) := do
  if !env.connectionOk then throw PyErr.externalError
  if !env.sectionOk then throw PyErr.externalError
  let existing := if collectionExists then existingItems else []
  let (desired, _failedKeys) := fetchDesired fetch ratingKeys
  let removeCalls ← if existing.isEmpty then pure []
    else if env.removeOk then pure [PlexCall.removeItems existing]
    else throw PyErr.externalError
  let addCalls ←
    if desired.isEmpty then pure []
    else if !collectionExists then
      if env.createOk then pure [PlexCall.createCollection desired]
      else throw PyErr.externalError
    else if env.addOk then pure [PlexCall.addItems desired]
    else throw PyErr.externalError
  let r := if desired.isEmpty then (⟨[], 0, []⟩ : ReorderResult)
    else apply_custom_order env.reorder (desired.map (fun i => i.ratingKey))
      (desired.map (fun i => i.ratingKey))
  pure (removeCalls ++ addCalls ++ r.moveCalls.map (fun c => PlexCall.moveItem c.1 c.2), r)

/-- Claim C10: if setting the collection ordering mode to custom fails at the
start of `_apply_custom_order`, the function returns immediately: no per-item
move is attempted, nothing is raised, and the summary is all-zero — in the
current variant and in the legacy variant alike. -/
theorem apply_custom_order_sort_failure_noop :
    ∀ (snapOk : Bool) (fails : Nat → Bool) (collectionIds orderedIds : List Nat),
      apply_custom_order ⟨false, snapOk, fails⟩ collectionIds orderedIds =
        ⟨[], 0, []⟩ ∧
      apply_custom_order_legacy false fails orderedIds = .ok [] := by
  intro snapOk fails collectionIds orderedIds
  exact ⟨by simp [apply_custom_order], by simp [apply_custom_order_legacy]⟩

theorem map_fst_expectedMoveCalls (k : Nat) (prev : Option Nat) (l : List Nat) :
    (expectedMoveCalls k prev l).map Prod.fst = l := by
  induction l generalizing prev with
  | nil => rfl
  | cons id rest ih => simp [expectedMoveCalls, ih]

theorem anchor_eq_self (snapshot : List Nat) (prev : Option Nat)
    (hprev : ∀ p, prev = some p → p ∈ snapshot) :
    anchorFor snapshot prev = prev := by
  cases prev with
  | none => rfl
  | some p => simp [anchorFor, hprev p rfl]

theorem moveLoop_no_fail (fails : Nat → Bool) (snapshot : List Nat) (k : Nat) :
    ∀ (l : List Nat) (prev : Option Nat),
      (∀ i ∈ l, fails i = false) →
      (∀ i ∈ l, i ∈ snapshot) →
      (∀ p, prev = some p → p ∈ snapshot) →
      k ∉ l →
      moveLoop fails snapshot prev l = ⟨expectedMoveCalls k prev l, l.length, []⟩ := by
  intro l
  induction l with
  | nil =>
      intro prev _ _ _ _
      simp [moveLoop, expectedMoveCalls]
  | cons id rest ih =>
      intro prev hf hm hprev hk
      have hid : id ∈ snapshot := hm id (List.mem_cons_self id rest)
      have hanchor := anchor_eq_self snapshot prev hprev
      have hfid : fails id = false := hf id (List.mem_cons_self id rest)
      have hknid : id ≠ k := fun hc => hk (hc ▸ List.mem_cons_self id rest)
      have hrest := ih (some id)
        (fun i hi => hf i (List.mem_cons_of_mem id hi))
        (fun i hi => hm i (List.mem_cons_of_mem id hi))
        (fun p hp => by injection hp with h; exact h ▸ hid)
        (fun hc => hk (List.mem_cons_of_mem id hc))
      simp only [moveLoop, if_pos hid, hanchor, hfid, Bool.false_eq_true, if_false,
        hrest, expectedMoveCalls, if_neg hknid, List.length_cons]

theorem moveLoop_one_fail (fails : Nat → Bool) (snapshot : List Nat) (k : Nat) :
    ∀ (l : List Nat) (prev : Option Nat),
      (∀ i ∈ l, fails i = decide (i = k)) →
      (∀ i ∈ l, i ∈ snapshot) →
      (∀ p, prev = some p → p ∈ snapshot) →
      l.Nodup →
      k ∈ l →
      moveLoop fails snapshot prev l =
        ⟨expectedMoveCalls k prev l, l.length - 1, [k]⟩ := by
  intro l
  induction l with
  | nil =>
      intro prev _ _ _ _ hk
      simp at hk
  | cons id rest ih =>
      intro prev hf hm hprev hnd hk
      have hid : id ∈ snapshot := hm id (List.mem_cons_self id rest)
      have hanchor := anchor_eq_self snapshot prev hprev
      by_cases hik : id = k
      · subst hik
        have hfid : fails id = true := by
          rw [hf id (List.mem_cons_self id rest)]
          simp
        have hidrest : id ∉ rest := (List.nodup_cons.mp hnd).1
        have hrest := moveLoop_no_fail fails snapshot id rest prev
          (fun i hi => by
            rw [hf i (List.mem_cons_of_mem id hi)]
            simp
            exact fun hc => hidrest (hc ▸ hi))
          (fun i hi => hm i (List.mem_cons_of_mem id hi))
          hprev
          hidrest
        simp only [moveLoop, if_pos hid, hanchor, hfid, if_true, hrest,
          expectedMoveCalls, if_pos rfl, List.length_cons, Nat.add_sub_cancel]
      · have hfid : fails id = false := by
          rw [hf id (List.mem_cons_self id rest)]
          simp [hik]
        have hkrest : k ∈ rest := by
          rcases List.mem_cons.mp hk with hc | hc
          · exact absurd hc.symm hik
          · exact hc
        have hrestne : rest ≠ [] := by
          intro hc
          rw [hc] at hkrest
          simp at hkrest
        have hlen : rest.length - 1 + 1 = rest.length := by
          have : 0 < rest.length := List.length_pos.mpr hrestne
          omega
        have hrest := ih (some id)
          (fun i hi => hf i (List.mem_cons_of_mem id hi))
          (fun i hi => hm i (List.mem_cons_of_mem id hi))
          (fun p hp => by injection hp with h; exact h ▸ hid)
          (List.nodup_cons.mp hnd).2
          hkrest
      
        simp only [moveLoop, if_pos hid, hanchor, hfid, Bool.false_eq_true, if_false,
          hrest, expectedMoveCalls, if_neg hik, List.length_cons, hlen,
          Nat.add_sub_cancel]

/-- Claim C2 (amended, current variant): in the current `_apply_custom_order`,
when exactly the move of item `k` among `n` ordered items fails, every item
still gets its move call, the function returns (nothing is raised), the
summary reports `n - 1` successes and exactly the one failure `k`, and the
calls anchor each item on the last successfully moved item — the anchor is
not advanced on the failed move and is never reset while the anchor stays in
the collection snapshot. -/
theorem apply_custom_order_partial_failure :
    ∀ (env : ReorderEnv) (collectionIds orderedIds : List Nat) (k : Nat),
      env.sortUpdateOk = true →
      env.snapshotFetchOk = true →
      (∀ i ∈ orderedIds, i ∈ collectionIds) →
      orderedIds.Nodup →
      k ∈ orderedIds →
      (∀ i ∈ orderedIds, env.moveFails i = decide (i = k)) →
      apply_custom_order env collectionIds orderedIds =
        ⟨expectedMoveCalls k none orderedIds, orderedIds.length - 1, [k]⟩ ∧
      (expectedMoveCalls k none orderedIds).map Prod.fst = orderedIds := by
  intro env cIds oIds k hs hsn hm hnd hk hf
  constructor
  · rw [apply_custom_order, if_pos hs, if_pos hsn]
    exact moveLoop_one_fail env.moveFails cIds k oIds none hf hm
      (fun p hp => Option.noConfusion hp) hnd hk
  · exact map_fst_expectedMoveCalls k none oIds

/-- Claim C2 counterexample: in the legacy `_apply_custom_order`
(`helpers/plex_collection_manager.py`), with a 2-item desired order in which
exactly the move of item 1 fails, the reorder raises to the caller instead of
continuing — so move independence does not hold on that reorder path. -/
theorem reorder_legacy_raises_counterexample :
    apply_custom_order_legacy true (fun i => decide (i = 1)) [1, 2] =
      .error .externalError := by
  decide

/-- Witness for `apply_custom_order_partial_failure`: items [1, 2, 3] with
the move of item 2 failing: calls for all three items, 2 successes, 1
failure, anchors [none, 1, 1]. -/
theorem apply_custom_order_partial_failure_witness :
    apply_custom_order ⟨true, true, fun i => decide (i = 2)⟩ [1, 2, 3] [1, 2, 3] =
      ⟨[(1, none), (2, some 1), (3, some 1)], 2, [2]⟩ ∧
    ([(1, (none : Option Nat)), (2, some 1), (3, some 1)]).map Prod.fst =
      [1, 2, 3] := by
  have h := apply_custom_order_partial_failure ⟨true, true, fun i => decide (i = 2)⟩
    [1, 2, 3] [1, 2, 3] 2 rfl rfl (by decide) (by decide) (by decide) (by decide)
  exact ⟨h.1.trans (by decide), by decide⟩

/-- Claim C1 (code-bug evidence): when the collection does not exist at
Fetch time and the computed `to_add` is non-empty,
`refresh_collection_with_points` raises `AttributeError` (it calls
`collection.addItems` with `collection = None` and never creates the
collection), while `apply_collection_state_to_plex` does create the
collection with the desired item set instead of add and completes. -/
theorem refresh_missing_collection_crash :
    refresh_collection_with_points false [] [PlexItem.mk 101 "Alpha" "movie"] []
        false ⟨true, true, fun _ => false⟩ id = .error .attributeErrorNone ∧
    apply_collection_state_to_plex
        ⟨true, true, true, true, true, ⟨true, true, fun _ => false⟩⟩ false []
        ["101"]
        (fun rk => if rk == "101" then some (PlexItem.mk 101 "Alpha" "movie")
          else none) =
      .ok ([PlexCall.createCollection [PlexItem.mk 101 "Alpha" "movie"],
            PlexCall.moveItem 101 none],
           ⟨[(101, none)], 1, []⟩) := by
  constructor
  · decide
  · decide

/-- Claim C3: the Diff step computes `to_remove = current − desired` and
`to_add = desired − current` by item key, characterized purely by key-set
membership (hence independent of input order); identical key sets give two
empty lists and an Apply step that issues no mutating call; and the
`current = {A, B}, desired = {B, C}` example yields `to_remove = {A}`,
`to_add = {C}`. -/
theorem diff_by_key_set_difference :
    (∀ current desired : List PlexItem,
        (∀ k, k ∈ current.map itemKey ↔ k ∈ desired.map itemKey) →
        diffByKey current desired = ([], []) ∧
        ∀ b, diff_apply_calls b current desired = .ok []) ∧
    (∀ (current desired : List PlexItem) (k : String),
        (k ∈ (diffByKey current desired).1.map itemKey ↔
          (k ∈ current.map itemKey ∧ ¬ k ∈ desired.map itemKey)) ∧
        (k ∈ (diffByKey current desired).2.map itemKey ↔
          (k ∈ desired.map itemKey ∧ ¬ k ∈ current.map itemKey))) ∧
    (diffByKey [PlexItem.mk 1 "A" "movie", PlexItem.mk 2 "B" "movie"]
        [PlexItem.mk 2 "B" "movie", PlexItem.mk 3 "C" "movie"] =
      ([PlexItem.mk 1 "A" "movie"], [PlexItem.mk 3 "C" "movie"])) := by
  refine ⟨?_, ?_, by decide⟩
  · intro current desired hkeys
    have hpair : diffByKey current desired = ([], []) := by
      rw [diffByKey]
      simp only [Prod.mk.injEq]
      constructor
      · rw [List.filter_eq_nil_iff]
        intro i hi
        simp only [decide_eq_true_eq, Decidable.not_not]
        exact (hkeys (itemKey i)).mp (List.mem_map_of_mem itemKey hi)
      · rw [List.filter_eq_nil_iff]
        intro i hi
        simp only [decide_eq_true_eq, Decidable.not_not]
        exact (hkeys (itemKey i)).mpr (List.mem_map_of_mem itemKey hi)
    refine ⟨hpair, ?_⟩
    intro b
    simp [diff_apply_calls, hpair, bind, Except.bind, pure, Except.pure]
  · intro current desired k
    constructor
    · simp only [diffByKey, List.mem_map, List.mem_filter, decide_eq_true_eq]
      constructor
      · rintro ⟨i, ⟨hi, hni⟩, rfl⟩
        exact ⟨⟨i, hi, rfl⟩, hni⟩
      · rintro ⟨⟨i, hi, rfl⟩, hni⟩
        exact ⟨i, ⟨hi, hni⟩, rfl⟩
    · simp only [diffByKey, List.mem_map, List.mem_filter, decide_eq_true_eq]
      constructor
      · rintro ⟨i, ⟨hi, hni⟩, rfl⟩
        exact ⟨⟨i, hi, rfl⟩, hni⟩
      · rintro ⟨⟨i, hi, rfl⟩, hni⟩
        exact ⟨i, ⟨hi, hni⟩, rfl⟩

/-- Witness for `diff_by_key_set_difference`: identical one-item sets diff
to two empty lists and an Apply step with no calls. -/
theorem diff_by_key_set_difference_witness :
    diffByKey [PlexItem.mk 1 "A" "movie"] [PlexItem.mk 1 "A" "movie"] = ([], []) ∧
    diff_apply_calls true [PlexItem.mk 1 "A" "movie"] [PlexItem.mk 1 "A" "movie"] =
      .ok [] := by
  have h := diff_by_key_set_difference.1 [PlexItem.mk 1 "A" "movie"]
    [PlexItem.mk 1 "A" "movie"] (fun k => Iff.rfl)
  exact ⟨h.1, h.2 true⟩

/-- A candidate of the filtering variant (`tautulli_watched_movies.py`): a
Plex movie title and its resolved TMDb id (`None` when lookup failed). -/
structure WMCand where
  title : String
  tmdbId : Option Nat
deriving DecidableEq

/-- A points record of the filtering variant.  `load_points` upgrades legacy
bare integers to `{"title": ..., "points": ...}` on load, so within this
variant every stored value has this record shape with integer points. -/
structure WMRec where
  title : String
  points : Int
deriving DecidableEq

abbrev WMPoints := List (String × WMRec)

/-- Step 3 of the filtering `refresh_collection_with_points`: walk the
candidates in order; skip candidates with no TMDb id; a new key gets points
10; an existing key decays to `max(old - 1, 0)` and its title is refreshed;
the candidate tuple records the just-stored points and the cached rating. -/
def wm_update_points (pd : WMPoints) (rating : Nat → Rat) :
    List WMCand → WMPoints × List (WMCand × Int × Rat)
  | [] => (pd, [])
  | c :: rest =>
      match c.tmdbId with
      | none => wm_update_points pd rating rest
      | some tid =>
          let key := toString tid
          let pd₁ := match aget pd key with
            | none => aset pd key ⟨c.title, 10⟩
            | some r => aset pd key ⟨c.title, max (r.points - 1) 0⟩
          let cur := match aget pd₁ key with
            | some r => r.points
            | none => 0
          let next := wm_update_points pd₁ rating rest
          (next.1, (c, cur, rating tid) :: next.2)

/-- Step 4 (filter): keep a tuple iff `points >= 5 or rating > 8`; the
second component is the removed list. -/
def wm_filter (ts : List (WMCand × Int × Rat)) :
    List (WMCand × Int × Rat) × List (WMCand × Int × Rat) :=
  (ts.filter (fun t => decide (5 ≤ t.2.1 ∨ 8 < t.2.2)),
   ts.filter (fun t => decide (¬ (5 ≤ t.2.1 ∨ 8 < t.2.2))))

/-- Descending lexicographic comparison on a `(rating, points)` key,
mirroring `sort(key=lambda x: (x[2], x[1]), reverse=True)`. -/
def pairGeQI (a b : Rat × Int) : Bool :=
  decide (b.1 < a.1 ∨ (a.1 = b.1 ∧ b.2 ≤ a.2))

/-- The final sort of the filtering variant. -/
def wm_sort (kept : List (WMCand × Int × Rat)) : List (WMCand × Int × Rat) :=
  stableSortBy (fun a b => pairGeQI (a.2.2, a.2.1) (b.2.2, b.2.1)) kept

/-- The scoring/filter/sort core of the filtering variant's
`refresh_collection_with_points`: returns the updated points map, the kept
tuples in final order, and `final_movies`. -/
def wm_refresh_core (pd : WMPoints) (rating : Nat → Rat) (cands : List WMCand) :
    WMPoints × List (WMCand × Int × Rat) × List WMCand :=
  let step := wm_update_points pd rating cands
  let kept := (wm_filter step.2).1
  let sortedTuples := wm_sort kept
  (step.1, sortedTuples, sortedTuples.map (fun t => t.1))

theorem lexGe_total {γ δ : Type} [LinearOrder γ] [LinearOrder δ] (a b : γ × δ) :
    (b.1 < a.1 ∨ (a.1 = b.1 ∧ b.2 ≤ a.2)) ∨ (a.1 < b.1 ∨ (b.1 = a.1 ∧ a.2 ≤ b.2)) := by
  rcases lt_trichotomy a.1 b.1 with h | h | h
  · right; left; exact h
  · rcases le_total b.2 a.2 with h₂ | h₂
    · left; right; exact ⟨h, h₂⟩
    · right; right; exact ⟨h.symm, h₂⟩
  · left; left; exact h

theorem lexGe_trans {γ δ : Type} [LinearOrder γ] [LinearOrder δ] (a b c : γ × δ)
    (h₁ : b.1 < a.1 ∨ (a.1 = b.1 ∧ b.2 ≤ a.2))
    (h₂ : c.1 < b.1 ∨ (b.1 = c.1 ∧ c.2 ≤ b.2)) :
    c.1 < a.1 ∨ (a.1 = c.1 ∧ c.2 ≤ a.2) := by
  rcases h₁ with h₁ | ⟨e₁, l₁⟩
  · rcases h₂ with h₂ | ⟨e₂, l₂⟩
    · exact Or.inl (h₂.trans h₁)
    · exact Or.inl (e₂ ▸ h₁)
  · rcases h₂ with h₂ | ⟨e₂, l₂⟩
    · exact Or.inl (e₁ ▸ h₂)
    · exact Or.inr ⟨e₁.trans e₂, l₂.trans l₁⟩

/-- Claim C7: in the filtering variant, a candidate is kept iff its score is
at least 5 or its rating exceeds 8 (dropped exactly when score < 5 and
rating ≤ 8), the kept candidates are sorted by (rating, score) descending,
new entries receive score 10, existing entries decay to `max(old - 1, 0)`,
and the spec's literal examples hold (score 4 / rating 9 kept, score 4 /
rating 7 removed, score 5 / rating 0 kept). -/
theorem wm_filtering_variant :
    (∀ (pd : WMPoints) (rating : Nat → Rat) (cands : List WMCand)
        (t : WMCand × Int × Rat),
        t ∈ (wm_refresh_core pd rating cands).2.1 ↔
          t ∈ (wm_update_points pd rating cands).2 ∧
            ((5 : Int) ≤ t.2.1 ∨ (8 : Rat) < t.2.2)) ∧
    (∀ (ts : List (WMCand × Int × Rat)) (t : WMCand × Int × Rat),
        t ∈ (wm_filter ts).2 ↔
          t ∈ ts ∧ (t.2.1 < 5 ∧ t.2.2 ≤ 8)) ∧
    (∀ (pd : WMPoints) (rating : Nat → Rat) (cands : List WMCand),
        ((wm_refresh_core pd rating cands).2.1).Pairwise (fun a b =>
          b.2.2 < a.2.2 ∨ (a.2.2 = b.2.2 ∧ b.2.1 ≤ a.2.1))) ∧
    (∀ (pd : WMPoints) (rating : Nat → Rat) (c : WMCand) (cs : List WMCand)
        (tid : Nat), c.tmdbId = some tid →
        (aget pd (toString tid) = none →
          wm_update_points pd rating (c :: cs) =
            ((wm_update_points (aset pd (toString tid) ⟨c.title, 10⟩) rating cs).1,
             (c, 10, rating tid) ::
               (wm_update_points (aset pd (toString tid) ⟨c.title, 10⟩) rating cs).2)) ∧
        (∀ r, aget pd (toString tid) = some r →
          wm_update_points pd rating (c :: cs) =
            ((wm_update_points
                (aset pd (toString tid) ⟨c.title, max (r.points - 1) 0⟩) rating cs).1,
             (c, max (r.points - 1) 0, rating tid) ::
               (wm_update_points
                 (aset pd (toString tid) ⟨c.title, max (r.points - 1) 0⟩) rating cs).2))) ∧
    ((wm_filter [(WMCand.mk "X" (some 1), 4, 9), (WMCand.mk "Y" (some 2), 4, 7),
        (WMCand.mk "Z" (some 3), 5, 0)]).1 =
      [(WMCand.mk "X" (some 1), 4, 9), (WMCand.mk "Z" (some 3), 5, 0)] ∧
     (wm_filter [(WMCand.mk "X" (some 1), 4, 9), (WMCand.mk "Y" (some 2), 4, 7),
        (WMCand.mk "Z" (some 3), 5, 0)]).2 =
      [(WMCand.mk "Y" (some 2), 4, 7)]) := by
  refine ⟨?_, ?_, ?_, ?_, by constructor <;> decide⟩
  · intro pd rating cands t
    simp only [wm_refresh_core, wm_sort, mem_stableSortBy, wm_filter,
      List.mem_filter, decide_eq_true_eq]
  · intro ts t
    simp only [wm_filter, List.mem_filter, decide_eq_true_eq]
    constructor
    · rintro ⟨ht, hcond⟩
      push_neg at hcond
      exact ⟨ht, hcond.1, hcond.2⟩
    · rintro ⟨ht, h₁, h₂⟩
      refine ⟨ht, ?_⟩
      push_neg
      exact ⟨h₁, h₂⟩
  · intro pd rating cands
    have htot : ∀ a b : WMCand × Int × Rat,
        pairGeQI (a.2.2, a.2.1) (b.2.2, b.2.1) = true ∨
        pairGeQI (b.2.2, b.2.1) (a.2.2, a.2.1) = true := by
      intro a b
      simp only [pairGeQI, decide_eq_true_eq]
      exact lexGe_total (a.2.2, a.2.1) (b.2.2, b.2.1)
    have htr : ∀ a b c : WMCand × Int × Rat,
        pairGeQI (a.2.2, a.2.1) (b.2.2, b.2.1) = true →
        pairGeQI (b.2.2, b.2.1) (c.2.2, c.2.1) = true →
        pairGeQI (a.2.2, a.2.1) (c.2.2, c.2.1) = true := by
      intro a b c h₁ h₂
      simp only [pairGeQI, decide_eq_true_eq] at h₁ h₂ ⊢
      exact lexGe_trans (a.2.2, a.2.1) (b.2.2, b.2.1) (c.2.2, c.2.1) h₁ h₂
    have h := pairwise_stableSortBy
      (fun a b : WMCand × Int × Rat => pairGeQI (a.2.2, a.2.1) (b.2.2, b.2.1))
      htot htr ((wm_filter (wm_update_points pd rating cands).2).1)
    refine List.Pairwise.imp ?_ h
    intro a b hab
    simpa [pairGeQI, decide_eq_true_eq] using hab
  · intro pd rating c cs tid hc
    constructor
    · intro hnone
      simp only [wm_update_points, hc, hnone, aget_aset_self]
    · intro r hsome
      simp only [wm_update_points, hc, hsome, aget_aset_self]

/-- Witness for `wm_filtering_variant`: one fresh candidate with TMDb id 7
gets score 10 and title stored; the kept-iff clause at a concrete tuple. -/
theorem wm_filtering_variant_witness :
    wm_update_points [] (fun _ => (0 : Rat)) [WMCand.mk "M" (some 7)] =
      ([("7", WMRec.mk "M" 10)], [(WMCand.mk "M" (some 7), 10, 0)]) ∧
    ((WMCand.mk "M" (some 7), (10 : Int), (0 : Rat)) ∈
        (wm_refresh_core [] (fun _ => (0 : Rat)) [WMCand.mk "M" (some 7)]).2.1 ↔
      ((WMCand.mk "M" (some 7), (10 : Int), (0 : Rat)) ∈
          (wm_update_points [] (fun _ => (0 : Rat)) [WMCand.mk "M" (some 7)]).2 ∧
        ((5 : Int) ≤ 10 ∨ (8 : Rat) < 0))) := by
  constructor
  · exact ((wm_filtering_variant.2.2.2.1 [] (fun _ => (0 : Rat))
      (WMCand.mk "M" (some 7)) [] 7 rfl).1 rfl).trans (by decide)
  · exact wm_filtering_variant.1 [] (fun _ => (0 : Rat)) [WMCand.mk "M" (some 7)]
      (WMCand.mk "M" (some 7), 10, 0)

/-- Whether a Python value is a dict. -/
def isDict : PyVal → Bool
  | .vDict _ => true
  | _ => false

/-- Model of the Python expression `v or {}`. -/
def pyOrEmptyDict (v : PyVal) : PyVal :=
  if truthy v then v else .vDict []

/-- The in-memory state of a `TMDbCache`: the `ids` and `ratings` mappings
(kept as Python values, since a malformed legacy file can in principle load
a non-dict into them). -/
structure CacheState where
  ids : PyVal
  ratings : PyVal

/-- Model of `TMDbCache._save`: the payload always written back uses the
legacy key names `id_cache`/`rating_cache`. -/
def cacheSavePayload (st : CacheState) : PyVal :=
  .vDict [("id_cache", st.ids), ("rating_cache", st.ratings)]

/-- Model of `TMDbCache._load`: a missing file or unparsable/non-dict
content resets to empty; a payload with a legacy key normalizes from
`id_cache`/`rating_cache`; otherwise the current `ids`/`ratings` names are
read (with `id_cache`/`rating_cache` still taking precedence). -/
def cacheLoad (fileExists : Bool) (raw : Option PyVal) : CacheState :=
  if fileExists then
    match raw with
    | some (.vDict r) =>
        if hasKey r "id_cache" || hasKey r "rating_cache" then
          ⟨pyOrEmptyDict ((aget r "id_cache").getD (.vDict [])),
           pyOrEmptyDict ((aget r "rating_cache").getD (.vDict []))⟩
        else
          ⟨pyOrEmptyDict ((aget r "id_cache").getD ((aget r "ids").getD (.vDict []))),
           pyOrEmptyDict ((aget r "rating_cache").getD ((aget r "ratings").getD (.vDict [])))⟩
    | _ => ⟨.vDict [], .vDict []⟩
  else ⟨.vDict [], .vDict []⟩

theorem pyOrEmptyDict_of_isDict (v : PyVal) (h : isDict v = true) :
    pyOrEmptyDict v = v := by
  cases v with
  | vDict fields =>
      cases fields with
      | nil => simp [pyOrEmptyDict, truthy]
      | cons a l => simp [pyOrEmptyDict, truthy]
  | vNone => simp [isDict] at h
  | vBool b => simp [isDict] at h
  | vInt n => simp [isDict] at h
  | vFloat q => simp [isDict] at h
  | vStr s => simp [isDict] at h

/-- Claim C8: saving a `TMDbCache` and loading the file back yields the
identical in-memory id/rating mappings; a legacy-keyed file
(`id_cache`/`rating_cache`) and a current-keyed file (`ids`/`ratings`) with
the same contents normalize to the same in-memory state; and save always
writes the legacy key names back. -/
theorem tmdb_cache_round_trip :
    (∀ st : CacheState, isDict st.ids = true → isDict st.ratings = true →
        cacheLoad true (some (cacheSavePayload st)) = st) ∧
    (∀ i r : PyVal,
        cacheLoad true (some (.vDict [("id_cache", i), ("rating_cache", r)])) =
          cacheLoad true (some (.vDict [("ids", i), ("ratings", r)]))) ∧
    (∀ st : CacheState, cacheSavePayload st =
        .vDict [("id_cache", st.ids), ("rating_cache", st.ratings)]) := by
  refine ⟨?_, ?_, fun st => rfl⟩
  · intro st hi hr
    obtain ⟨ids, ratings⟩ := st
    have h₁ : aget [("id_cache", ids), ("rating_cache", ratings)] "id_cache" =
        some ids := aget_cons_self _ _ _
    have h₂ : aget [("id_cache", ids), ("rating_cache", ratings)] "rating_cache" =
        some ratings := by
      rw [aget_cons_ne _ _ _ _ (by decide)]
      exact aget_cons_self _ _ _
    have hk : hasKey [("id_cache", ids), ("rating_cache", ratings)] "id_cache" =
        true := by rw [hasKey, h₁]; rfl
    simp only [cacheSavePayload, cacheLoad, hk, Bool.true_or, if_true, h₁, h₂,
      Option.getD_some]
    rw [pyOrEmptyDict_of_isDict ids hi, pyOrEmptyDict_of_isDict ratings hr]
  · intro i r
    have h₁ : aget [("id_cache", i), ("rating_cache", r)] "id_cache" = some i :=
      aget_cons_self _ _ _
    have h₂ : aget [("id_cache", i), ("rating_cache", r)] "rating_cache" =
        some r := by
      rw [aget_cons_ne _ _ _ _ (by decide)]
      exact aget_cons_self _ _ _
    have hk : hasKey [("id_cache", i), ("rating_cache", r)] "id_cache" = true := by
      rw [hasKey, h₁]; rfl
    have h₃ : aget [("ids", i), ("ratings", r)] "id_cache" = none := by
      rw [aget_cons_ne _ _ _ _ (by decide), aget_cons_ne _ _ _ _ (by decide), aget_nil]
    have h₄ : aget [("ids", i), ("ratings", r)] "rating_cache" = none := by
      rw [aget_cons_ne _ _ _ _ (by decide), aget_cons_ne _ _ _ _ (by decide), aget_nil]
    have h₅ : aget [("ids", i), ("ratings", r)] "ids" = some i :=
      aget_cons_self _ _ _
    have h₆ : aget [("ids", i), ("ratings", r)] "ratings" = some r := by
      rw [aget_cons_ne _ _ _ _ (by decide)]
      exact aget_cons_self _ _ _
    have hk₃ : hasKey [("ids", i), ("ratings", r)] "id_cache" = false := by
      rw [hasKey, h₃]; rfl
    have hk₄ : hasKey [("ids", i), ("ratings", r)] "rating_cache" = false := by
      rw [hasKey, h₄]; rfl
    simp only [cacheLoad, hk, Bool.true_or, if_true, h₁, h₂, Option.getD_some,
      hk₃, hk₄, Bool.or_self, Bool.false_or, Bool.false_eq_true, if_false,
      h₃, h₄, h₅, h₆, Option.getD_none]

/-- Witness for `tmdb_cache_round_trip`: a cache holding one title→id entry
and one id→rating entry survives a save/load round trip unchanged. -/
theorem tmdb_cache_round_trip_witness :
    cacheLoad true (some (cacheSavePayload
      ⟨.vDict [("Heat", .vInt 949)], .vDict [("949", .vFloat (17 / 2))]⟩)) =
      ⟨.vDict [("Heat", .vInt 949)], .vDict [("949", .vFloat (17 / 2))]⟩ :=
  tmdb_cache_round_trip.1
    ⟨.vDict [("Heat", .vInt 949)], .vDict [("949", .vFloat (17 / 2))]⟩ rfl rfl

/-- Outcome of one external step as observed by the refresher: a value, a
`KeyboardInterrupt`, or any other raised exception. -/
inductive ExtR (α : Type) where
  | ok (a : α)
  | interrupt
  | fail

/-- The external world driving one run of the refresher's `main`: each
outcome field models what the corresponding call would do. -/
structure RefWorld where
  configLoad : ExtR Unit
  pointsFileExists : Bool
  pointsRaw : ExtR PyVal
  shuffle : List String → List String
  connect : ExtR Unit
  loadSection : ExtR Unit
  fetchItem : String → ExtR (Option PlexItem)
  applyOutcome : ExtR Unit
  dryRun : Bool

/-- The Step-5 fetch loop of `refresher.main`: `_fetch_by_rating_key`
swallows every ordinary exception (returning `None`, collected under failed
keys) but a `KeyboardInterrupt` propagates; only movie-typed items are
kept. -/
def fetchLoop (w : RefWorld) : List String → ExtR (List PlexItem × List String)
  | [] => .ok ([], [])
  | rk :: rest =>
      match w.fetchItem rk with
      | .interrupt => .interrupt
      | .fail =>
          match fetchLoop w rest with
          | .interrupt => .interrupt
          | .fail => .fail
          | .ok acc => .ok (acc.1, rk :: acc.2)
      | .ok none =>
          match fetchLoop w rest with
          | .interrupt => .interrupt
          | .fail => .fail
          | .ok acc => .ok (acc.1, rk :: acc.2)
      | .ok (some it) =>
          match fetchLoop w rest with
          | .interrupt => .interrupt
          | .fail => .fail
          | .ok acc =>
              if strLower it.mediaType == "movie" then .ok (it :: acc.1, acc.2)
              else .ok acc

/-- `refresher.main` after the points file has been loaded into a dict
(empty on load failure or non-dict JSON): no-op exits return 0, connect and
section failures propagate, the fetch loop runs, and the collection state is
applied unless `--dry-run` was given. -/
def refresherAfterLoad (w : RefWorld) (pointsData : List (String × PyVal)) :
    ExtR Int :=
  if pointsData.isEmpty then .ok 0
  else if (pointsData.map Prod.fst).isEmpty then .ok 0
  else
      match w.connect with
      | .interrupt => .interrupt
      | .fail => .fail
      | .ok _ =>
          match w.loadSection with
          | .interrupt => .interrupt
          | .fail => .fail
          | .ok _ =>
              match fetchLoop w (w.shuffle (pointsData.map Prod.fst)) with
              | .interrupt => .interrupt
              | .fail => .fail
              | .ok (items, _failedKeys) =>
                  if items.isEmpty then .ok 0
                  else if w.dryRun then .ok 0
                  else
                      match w.applyOutcome with
                      | .interrupt => .interrupt
                      | .fail => .fail
                      | .ok _ => .ok 0

/-- The body of `refresher.main` inside its outer `try`: configuration load,
the missing-points-file early `return 1`, and `load_points` (which swallows
ordinary exceptions into an empty dict). -/
def refresherBody (w : RefWorld) : ExtR Int :=
  match w.configLoad with
  | .interrupt => .interrupt
  | .fail => .fail
  | .ok _ =>
      if w.pointsFileExists = false then .ok 1
      else
        match w.pointsRaw with
        | .interrupt => .interrupt
        | .fail => refresherAfterLoad w []
        | .ok v =>
            refresherAfterLoad w
              (match v with
               | .vDict fields => fields
               | _ => [])

/-- Model of `refresher.main`: the outer handlers translate
`KeyboardInterrupt` to exit code 130 and any other exception to 1; nothing
escapes. -/
def refresherMain (w : RefWorld) : Int :=
  match refresherBody w with
  | .ok c => c
  | .interrupt => 130
  | .fail => 1

theorem refresherAfterLoad_ok_codes (w : RefWorld)
    (pointsData : List (String × PyVal)) (c : Int)
    (h : refresherAfterLoad w pointsData = .ok c) : c = 0 := by
  unfold refresherAfterLoad at h
  repeat' split at h
  all_goals first
    | exact ExtR.noConfusion h
    | (injection h with h; omega)

theorem refresherBody_ok_codes (w : RefWorld) (c : Int)
    (h : refresherBody w = .ok c) : c = 0 ∨ c = 1 := by
  unfold refresherBody at h
  repeat' split at h
  all_goals first
    | exact ExtR.noConfusion h
    | (injection h with h; omega)
    | exact Or.inl (refresherAfterLoad_ok_codes w _ c h)

theorem fetchLoop_all_none (w : RefWorld) (h : ∀ rk, w.fetchItem rk = .ok none) :
    ∀ keys, fetchLoop w keys = .ok ([], keys) := by
  intro keys
  induction keys with
  | nil => rfl
  | cons rk rest ih => simp [fetchLoop, h rk, ih]

theorem fetchLoop_all_movie (w : RefWorld) (it : PlexItem)
    (h : ∀ rk, w.fetchItem rk = .ok (some it))
    (hm : strLower it.mediaType = "movie") :
    ∀ keys, fetchLoop w keys = .ok (keys.map (fun _ => it), []) := by
  intro keys
  induction keys with
  | nil => rfl
  | cons rk rest ih => simp [fetchLoop, h rk, ih, hm]

/-- Claim C9: `refresher.main` returns only the exit codes 0, 1 and 130
(never raises); 1 when the points file is missing; 0 in the no-op cases
(empty points data, no resolvable items); 0 on a full successful run (and
under `--dry-run`); 130 when a `KeyboardInterrupt` reaches the outer
handler and 1 when any other unhandled exception does. -/
theorem refresher_main_exit_codes :
    (∀ w : RefWorld,
        refresherMain w = 0 ∨ refresherMain w = 1 ∨ refresherMain w = 130) ∧
    (∀ w : RefWorld, w.configLoad = .ok () → w.pointsFileExists = false →
        refresherMain w = 1) ∧
    (∀ w : RefWorld, w.configLoad = .ok () → w.pointsFileExists = true →
        w.pointsRaw = .ok (.vDict []) → refresherMain w = 0) ∧
    (∀ (w : RefWorld) (fs : List (String × PyVal)),
        w.configLoad = .ok () → w.pointsFileExists = true →
        w.pointsRaw = .ok (.vDict fs) →
        w.connect = .ok () → w.loadSection = .ok () →
        (∀ rk, w.fetchItem rk = .ok none) →
        refresherMain w = 0) ∧
    (∀ (w : RefWorld) (fs : List (String × PyVal)) (it : PlexItem),
        w.configLoad = .ok () → w.pointsFileExists = true →
        w.pointsRaw = .ok (.vDict fs) →
        w.connect = .ok () → w.loadSection = .ok () →
        (∀ rk, w.fetchItem rk = .ok (some it)) →
        strLower it.mediaType = "movie" →
        (w.dryRun = true ∨ w.applyOutcome = .ok ()) →
        refresherMain w = 0) ∧
    (∀ (w : RefWorld) (fs : List (String × PyVal)),
        w.configLoad = .ok () → w.pointsFileExists = true →
        w.pointsRaw = .ok (.vDict fs) → fs ≠ [] →
        w.connect = .interrupt → refresherMain w = 130) ∧
    (∀ (w : RefWorld) (fs : List (String × PyVal)),
        w.configLoad = .ok () → w.pointsFileExists = true →
        w.pointsRaw = .ok (.vDict fs) → fs ≠ [] →
        w.connect = .fail → refresherMain w = 1) ∧
    (∀ w : RefWorld, refresherBody w = .interrupt → refresherMain w = 130) ∧
    (∀ w : RefWorld, refresherBody w = .fail → refresherMain w = 1) := by
  refine ⟨?_, ?_, ?_, ?_, ?_, ?_, ?_, ?_, ?_⟩
  · intro w
    cases hb : refresherBody w with
    | ok c =>
        rcases refresherBody_ok_codes w c hb with h | h <;>
          simp [refresherMain, hb, h]
    | interrupt => simp [refresherMain, hb]
    | fail => simp [refresherMain, hb]
  · intro w hc hp
    simp [refresherMain, refresherBody, hc, hp]
  · intro w hc hp hr
    simp [refresherMain, refresherBody, refresherAfterLoad, hc, hp, hr]
  · intro w fs hc hp hr hconn hsec hfetch
    by_cases hfs : fs.isEmpty = true
    · simp [refresherMain, refresherBody, refresherAfterLoad, hc, hp, hr, hfs]
    · have hkeys : (List.map Prod.fst fs).isEmpty = false := by
        cases fs with
        | nil => simp at hfs
        | cons a l => simp
      simp [refresherMain, refresherBody, refresherAfterLoad, hc, hp, hr, hfs,
        hkeys, hconn, hsec, fetchLoop_all_none w hfetch]
  · intro w fs it hc hp hr hconn hsec hfetch hmov hda
    by_cases hfs : fs.isEmpty = true
    · simp [refresherMain, refresherBody, refresherAfterLoad, hc, hp, hr, hfs]
    · have hkeys : (List.map Prod.fst fs).isEmpty = false := by
        cases fs with
        | nil => simp at hfs
        | cons a l => simp
      by_cases hsh : w.shuffle (List.map Prod.fst fs) = []
      · simp [refresherMain, refresherBody, refresherAfterLoad, hc, hp, hr, hfs,
          hkeys, hconn, hsec, fetchLoop_all_movie w it hfetch hmov, hsh]
      · rcases hda with hd | ha
        · simp [refresherMain, refresherBody, refresherAfterLoad, hc, hp, hr, hfs,
            hkeys, hconn, hsec, fetchLoop_all_movie w it hfetch hmov, hsh, hd]
        · simp [refresherMain, refresherBody, refresherAfterLoad, hc, hp, hr, hfs,
            hkeys, hconn, hsec, fetchLoop_all_movie w it hfetch hmov, hsh, ha]
  · intro w fs hc hp hr hfs hconn
    have hfse : fs.isEmpty = false := by
      cases fs with
      | nil => exact absurd rfl hfs
      | cons a l => simp
    have hkeys : (List.map Prod.fst fs).isEmpty = false := by
      cases fs with
      | nil => exact absurd rfl hfs
      | cons a l => simp
    simp [refresherMain, refresherBody, refresherAfterLoad, hc, hp, hr, hfse,
      hkeys, hconn]
  · intro w fs hc hp hr hfs hconn
    have hfse : fs.isEmpty = false := by
      cases fs with
      | nil => exact absurd rfl hfs
      | cons a l => simp
    have hkeys : (List.map Prod.fst fs).isEmpty = false := by
      cases fs with
      | nil => exact absurd rfl hfs
      | cons a l => simp
    simp [refresherMain, refresherBody, refresherAfterLoad, hc, hp, hr, hfse,
      hkeys, hconn]
  · intro w hb
    simp [refresherMain, hb]
  · intro w hb
    simp [refresherMain, hb]

/-- Witness for `refresher_main_exit_codes`: a fully successful run exits 0
and a missing points file exits 1. -/
theorem refresher_main_exit_codes_witness :
    refresherMain ⟨.ok (), true, .ok (.vDict [("5", .vInt 3)]), id, .ok (), .ok (),
        fun _ => .ok (some (PlexItem.mk 5 "Alpha" "movie")), .ok (), false⟩ = 0 ∧
    refresherMain ⟨.ok (), false, .ok (.vDict []), id, .ok (), .ok (),
        fun _ => .ok none, .ok (), false⟩ = 1 := by
  constructor
  · exact refresher_main_exit_codes.2.2.2.2.1 _ [("5", PyVal.vInt 3)]
      (PlexItem.mk 5 "Alpha" "movie") rfl rfl rfl rfl rfl (fun rk => rfl)
      (by decide) (Or.inr rfl)
  · exact refresher_main_exit_codes.2.1 _ rfl rfl
